import Mathlib

/-!
Verification development for the `store-scraper` repository
(`scripts/catalog/*.py` and the Nintendo adapter).

The Python source is shallowly embedded: strings are `List Char` / `String`,
JSON values are an inductive `Json`, `dict.get` is an association-list lookup,
Python truthiness is made explicit, and the two regular expressions of
`normalize.py` (`_MARK_RX`, the whitespace collapser `\s{2,}` and
`_EDITION_RX`) are implemented as executable scanners over character lists
with Python's leftmost, first-alternative, word-boundary semantics.

Modelling scope (documented where it matters): character classes
(`\s`, `\w`, `str.lower`, `str.upper`) are modelled for the ASCII range plus
the Unicode whitespace code points Python's `\s` matches; float amounts are
modelled as rationals; Python exceptions raised on wildly ill-typed payloads
(e.g. calling `.get` on a string) are modelled as absent values.
-/

/-- Python's `\s` (with `re.U`) / `str.strip()` whitespace class:
ASCII whitespace, the C1 separators, and the Unicode space separators. -/
def pySpace (c : Char) : Bool :=
  c = ' ' || c = '\t' || c = '\n' || c = '\r' || c.toNat = 11 || c.toNat = 12 ||
  (28 ≤ c.toNat && c.toNat ≤ 31) || c.toNat = 0x85 || c.toNat = 0xa0 ||
  c.toNat = 0x1680 || (0x2000 ≤ c.toNat && c.toNat ≤ 0x200a) ||
  c.toNat = 0x2028 || c.toNat = 0x2029 || c.toNat = 0x202f ||
  c.toNat = 0x205f || c.toNat = 0x3000

/-- The trademark/registered/copyright glyphs removed by `_MARK_RX`. -/
def isMark (c : Char) : Bool :=
  c = '™' || c = '®' || c = '©'

/-- Python's `\w` word-character class, modelled for the ASCII range. -/
def isWordChar (c : Char) : Bool :=
  ('a' ≤ c && c ≤ 'z') || ('A' ≤ c && c ≤ 'Z') || ('0' ≤ c && c ≤ '9') || c = '_'

/-- ASCII lower-casing, the fragment of Python's `str.lower` the adapter
relies on. -/
def pyLowerChar (c : Char) : Char :=
  if h : 65 ≤ c.toNat ∧ c.toNat ≤ 90 then
    Char.ofNatAux (c.toNat + 32) (Or.inl (by omega))
  else c

/-- ASCII upper-casing, the fragment of Python's `str.upper` used for
currency codes. -/
def pyUpperChar (c : Char) : Char :=
  if h : 97 ≤ c.toNat ∧ c.toNat ≤ 122 then
    Char.ofNatAux (c.toNat - 32) (Or.inl (by omega))
  else c

def pyLowerS (s : String) : String := String.mk (s.data.map pyLowerChar)

def pyUpperS (s : String) : String := String.mk (s.data.map pyUpperChar)

/-- Drop the longest run of characters satisfying `p` from both ends
(Python's `str.strip` family). -/
def trimLeftBy (p : Char → Bool) (l : List Char) : List Char := l.dropWhile p

def trimRightBy (p : Char → Bool) (l : List Char) : List Char :=
  (l.reverse.dropWhile p).reverse

def trimBy (p : Char → Bool) (l : List Char) : List Char :=
  trimRightBy p (trimLeftBy p l)

/-- Python `str.strip()` on a `String`. -/
def pyStripS (s : String) : String := String.mk (trimBy pySpace s.data)

/-- One pass of `re.sub(r"\s{2,}", " ", ·)`: every maximal run of two or
more whitespace characters becomes a single space, lone whitespace
characters are kept.  `prevWs` records whether the previously scanned
character was whitespace (i.e. whether we are inside a run whose
replacement has already been emitted). -/
def wsLookahead : List Char → Bool
  | c2 :: _ => pySpace c2
  | [] => false

def collapseGo (prevWs : Bool) : List Char → List Char
  | [] => []
  | c :: cs =>
    if pySpace c then
      if prevWs then collapseGo true cs
      else (if wsLookahead cs then ' ' else c) :: collapseGo true cs
    else c :: collapseGo false cs

def collapseWs (l : List Char) : List Char := collapseGo false l

/-- `clean_title` from `catalog/normalize.py`: strip `™®©`, strip outer
whitespace, collapse inner whitespace runs. -/
def clean_title (s : String) : String :=
  String.mk (collapseWs (trimBy pySpace (s.data.filter (fun c => !isMark c))))

/-- The alternatives of `_EDITION_RX`, in the pattern's order; the single
alternative `director'?s cut` is expanded into its two concrete forms in
the order Python's greedy `'?` tries them. -/
def editionAlts : List (List Char) :=
  [ "deluxe".data, "definitive".data, "gold".data, "ultimate".data,
    "goty".data, "complete".data, "remastered".data, "hd".data,
    "bundle".data, "collection".data,
    "director".data ++ [Char.ofNat 39] ++ "s cut".data,
    "directors cut".data,
    "edition".data ]

/-- Case-insensitive "pattern is a prefix of the text" (the pattern is
already lower-case). -/
def ciStartsWith : List Char → List Char → Bool
  | [], _ => true
  | _ :: _, [] => false
  | p :: ps, c :: cs => p = pyLowerChar c && ciStartsWith ps cs

/-- The trailing `\b` of `_EDITION_RX`: every alternative ends in a word
character, so the boundary holds iff the next character is missing or is
not a word character. -/
def boundaryAfter : List Char → Bool
  | [] => true
  | c :: _ => !isWordChar c

/-- Try to match some alternative of `_EDITION_RX` at the head of `l`,
returning the matched length.  Alternatives are tried in pattern order,
as Python's alternation does. -/
def tryEditionMatch (l : List Char) : Option Nat :=
  editionAlts.findSome? fun pat =>
    if ciStartsWith pat l && boundaryAfter (l.drop pat.length) then
      some pat.length
    else none

/-- `_EDITION_RX.sub("", ·)`: scan left to right; a match may start only at
a word boundary (`prevWord` is the word-ness of the previously scanned
character — after a removal this is the last character of the removed
word, which is always a word character).  Fuel is the length of the
list; every step consumes at least one character. -/
def edsubFuel : Nat → Bool → List Char → List Char
  | 0, _, l => l
  | _ + 1, _, [] => []
  | fuel + 1, prevWord, c :: cs =>
    match (if prevWord then none else tryEditionMatch (c :: cs)) with
    | some k => edsubFuel fuel true (List.drop k (c :: cs))
    | none => c :: edsubFuel fuel (isWordChar c) cs

def edsub (l : List Char) : List Char := edsubFuel l.length false l

/-- The character set of the final `.strip(" -–—")` in
`strip_edition_noise`. -/
def inDashStripSet (c : Char) : Bool :=
  c = ' ' || c = '-' || c = '–' || c = '—'

/-- `strip_edition_noise` from `catalog/normalize.py`. -/
def strip_edition_noise (s : String) : String :=
  let t := trimBy inDashStripSet (collapseWs (edsub (clean_title s).data))
  if t.isEmpty then clean_title s else String.mk t

/-- The amount in whole cents, rounded to nearest:
`⌊100·q + 1/2⌋ = ⌊(200·num + den) / (2·den)⌋`, written on `num`/`den`
directly so the kernel can evaluate it. -/
def centsOf (q : ℚ) : ℤ := Int.fdiv (200 * q.num + (q.den : ℤ)) (2 * (q.den : ℤ))

/-- Fixed two-decimal formatting of a rational amount, the model of
Python's `f"{amount:0.2f}"`. -/
def formatFixed2 (q : ℚ) : String :=
  let n : ℤ := centsOf q
  let m := n.natAbs
  (if n < 0 then "-" else "") ++ toString (m / 100) ++ "." ++
    (if m % 100 < 10 then "0" ++ toString (m % 100) else toString (m % 100))

/-- `price_to_string` from `catalog/normalize.py`.  `flags` is truthy iff
it is a non-empty string. -/
def price_to_string (amount : Option ℚ) (currency : Option String)
    (flags : Option String := none) : String :=
  match flags with
  | some f =>
    if f = "" then
      match amount, currency with
      | some a, some c =>
        (if pyUpperS c = "USD" then "$" else pyUpperS c ++ " ") ++ formatFixed2 a
      | _, _ => "Unavailable"
    else f
  | none =>
    match amount, currency with
    | some a, some c =>
      (if pyUpperS c = "USD" then "$" else pyUpperS c ++ " ") ++ formatFixed2 a
    | _, _ => "Unavailable"

/-- `letter_bucket` from `catalog/normalize.py`:
`(name or "").strip()[:1].lower()`, then the `a`–`z` range test. -/
def letter_bucket (name : String) : String :=
  match trimBy pySpace name.data with
  | [] => "_"
  | c :: _ =>
    let ch := pyLowerChar c
    if 'a' ≤ ch ∧ ch ≤ 'z' then String.mk [ch] else "_"

/-! ## `catalog/models.py` -/

/-- The `_platforms_clean` pydantic validator shared by `LetterItem` and
`GameRecord`: stringify (our inputs are already strings), strip, drop
entries that are empty after stripping, and drop entries whose
lower-cased form was already seen.  `seen` is the set of lower-cased
forms kept so far. -/
def platformsCleanGo (seen : List String) : List String → List String
  | [] => []
  | p :: ps =>
    let q := pyStripS p
    if q = "" then platformsCleanGo seen ps
    else if pyLowerS q ∈ seen then platformsCleanGo seen ps
    else q :: platformsCleanGo (pyLowerS q :: seen) ps

def platformsClean (v : List String) : List String := platformsCleanGo [] v

/-- The `_price_nonempty` pydantic validator:
`v = (v or "").strip(); return v if v else "Unavailable"`. -/
def priceNonempty (v : String) : String :=
  let w := pyStripS v
  if w = "" then "Unavailable" else w

/-- `LetterItem` from `catalog/models.py` (the per-letter output shape).
`HttpUrl` fields are modelled as strings. -/
structure LetterItem where
  name : String
  type : Option String
  price : String
  image : String
  href : String
  uuid : Option String
  platforms : List String
  rating : Option String

/-- `GameRecord` from `catalog/models.py`.  `store` is modelled as a
string (the Python side is a `Literal` enum) and `extra` is omitted:
the Nintendo adapter never populates it and no claim mentions it. -/
structure GameRecord where
  store : String
  name : String
  price : String
  image : String
  href : String
  uuid : Option String
  platforms : List String
  rating : Option String
  type : Option String

/-- Constructing a `GameRecord` runs the pydantic field validators
(`_price_nonempty`, `_platforms_clean`, `_rating_lower`). -/
def mkGameRecord (store name price image href : String) (uuid : Option String)
    (platforms : List String) (rating : Option String) (ty : Option String) :
    GameRecord :=
  { store := store, name := name, price := priceNonempty price, image := image,
    href := href, uuid := uuid, platforms := platformsClean platforms,
    rating := rating.map pyLowerS, type := ty }

/-- Constructing a `LetterItem` runs the same validators. -/
def mkLetterItem (name : String) (ty : Option String) (price image href : String)
    (uuid : Option String) (platforms : List String) (rating : Option String) :
    LetterItem :=
  { name := name, type := ty, price := priceNonempty price, image := image,
    href := href, uuid := uuid, platforms := platformsClean platforms,
    rating := rating.map pyLowerS }

/-! ## `catalog/dedupe.py` -/

/-- `canonical_key`: `re.sub(r"[^a-z0-9]+", "", strip_edition_noise(name).lower())`. -/
def isLowerAlnum (c : Char) : Bool :=
  ('a' ≤ c && c ≤ 'z') || ('0' ≤ c && c ≤ '9')

def canonical_key (name : String) : String :=
  String.mk (((strip_edition_noise name).data.map pyLowerChar).filter isLowerAlnum)

/-- `buckets.setdefault(k, []).append(r)` on an insertion-ordered dict,
modelled as an association list. -/
def bucketAdd (bs : List (String × List GameRecord)) (k : String) (r : GameRecord) :
    List (String × List GameRecord) :=
  match bs with
  | [] => [(k, [r])]
  | (k', l) :: rest =>
    if k' = k then (k', l ++ [r]) :: rest else (k', l) :: bucketAdd rest k r

/-- `cluster` from `catalog/dedupe.py`. -/
def cluster (records : List GameRecord) : List (String × List GameRecord) :=
  records.foldl (fun bs r => bucketAdd bs (canonical_key r.name) r) []

/-- Reading a bucket out of the mapping (`buckets[k]`, empty if the key is
absent). -/
def bucketsGet (bs : List (String × List GameRecord)) (k : String) :
    List GameRecord :=
  match bs with
  | [] => []
  | (k', l) :: rest => if k' = k then l else bucketsGet rest k

/-! ## JSON values and `json.loads`

Python JSON payloads are modelled by the inductive `Json`.  Objects are
insertion-ordered association lists, as Python dicts are; the parser
overwrites duplicate keys in place (first position, last value), which is
`json.loads`'s behaviour, so lookups may simply take the first match. -/

inductive Json where
  | null
  | bool (b : Bool)
  | num (q : ℚ)
  | str (s : String)
  | arr (elems : List Json)
  | obj (entries : List (String × Json))

/-- `d.get(k)` (returns `none` both for a missing key and for `.get` on a
non-dict, which in Python would raise). -/
def Json.get : Json → String → Option Json
  | Json.obj es, k => es.lookup k
  | _, _ => none

/-- `k in d`. -/
def Json.hasKey : Json → String → Bool
  | Json.obj es, k => es.any (fun e => e.1 == k)
  | _, _ => false

/-- Python truthiness of a JSON value. -/
def jTruthy : Json → Bool
  | Json.null => false
  | Json.bool b => b
  | Json.num q => !(q.num == 0)
  | Json.str s => !(s == "")
  | Json.arr l => !l.isEmpty
  | Json.obj l => !l.isEmpty

/-- Truthiness of a possibly-missing value (`dict.get` yields `None` for a
missing key, which is falsy). -/
def oTruthy : Option Json → Bool
  | none => false
  | some j => jTruthy j

/-- Python's `a or b` on possibly-missing JSON values: `b` is returned
as-is (even if falsy) when `a` is falsy. -/
def pyOr (a b : Option Json) : Option Json := if oTruthy a then a else b

/-- Python's `x or {}` idiom. -/
def pyOrObj (a : Option Json) : Json :=
  match a with
  | some j => if jTruthy j then j else Json.obj []
  | none => Json.obj []

/-- The string content of a JSON value in positions where the source
assumes a string; a non-string here would raise a `TypeError` in the
source, modelled as the empty string. -/
def jStr : Json → String
  | Json.str s => s
  | _ => ""

/-- Python `str(·)` for the values the adapter stringifies (urls, ids).
Numbers are rendered from the reduced fraction; containers, which Python
would render with brackets, are out of the modelled scope. -/
def pyStr : Json → String
  | Json.str s => s
  | Json.bool b => if b then "True" else "False"
  | Json.null => "None"
  | Json.num q => if q.den == 1 then toString q.num else toString q.num ++ "/" ++ toString q.den
  | Json.arr _ => ""
  | Json.obj _ => ""

/-- Decimal-string parsing for Python's `float(str)`: optional sign,
digits, optional fractional part (exponent forms are outside the model). -/
def digitsToNat : List Char → Option Nat
  | [] => none
  | l =>
    if l.all (fun c => c.isDigit) then
      some (l.foldl (fun n c => 10 * n + (c.toNat - 48)) 0)
    else none

def parseDecimal (l : List Char) : Option ℚ :=
  let (signNeg, rest) :=
    match l with
    | '-' :: r => (true, r)
    | '+' :: r => (false, r)
    | r => (false, r)
  let ip := rest.takeWhile (fun c => c.isDigit)
  let rest2 := rest.dropWhile (fun c => c.isDigit)
  let build : Nat → Nat → Nat → Option ℚ := fun whole frac k =>
    let n : ℤ := (whole * 10 ^ k + frac : Nat)
    some (mkRat (if signNeg then -n else n) (10 ^ k))
  match rest2 with
  | [] => if ip.isEmpty then none else build (ip.foldl (fun n c => 10 * n + (c.toNat - 48)) 0) 0 0
  | '.' :: fp =>
    if fp.all (fun c => c.isDigit) && !(ip.isEmpty && fp.isEmpty) then
      build (ip.foldl (fun n c => 10 * n + (c.toNat - 48)) 0)
        (fp.foldl (fun n c => 10 * n + (c.toNat - 48)) 0) fp.length
    else none
  | _ => none

/-- Python `float(·)` on a JSON value; raising conversions yield `none`
(the adapter wraps these calls in `try/except`). -/
def pyFloat : Json → Option ℚ
  | Json.num q => some q
  | Json.bool b => some (if b then 1 else 0)
  | Json.str s => parseDecimal (trimBy pySpace s.data)
  | _ => none

/-- JSON's own whitespace (what `json.loads` skips between tokens). -/
def jsonWs (c : Char) : Bool :=
  c = ' ' || c = '\t' || c = '\n' || c = '\r'

def skipJsonWs (l : List Char) : List Char := l.dropWhile jsonWs

/-- String-literal body: everything up to the closing quote, with the
basic escapes (`\uXXXX` is outside the model and fails the parse). -/
def parseStringBody (acc : List Char) : List Char → Option (String × List Char)
  | [] => none
  | '"' :: rest => some (String.mk acc.reverse, rest)
  | '\\' :: e :: rest =>
    match e with
    | '"' => parseStringBody ('"' :: acc) rest
    | '\\' => parseStringBody ('\\' :: acc) rest
    | '/' => parseStringBody ('/' :: acc) rest
    | 'n' => parseStringBody ('\n' :: acc) rest
    | 't' => parseStringBody ('\t' :: acc) rest
    | 'r' => parseStringBody ('\r' :: acc) rest
    | 'b' => parseStringBody (Char.ofNat 8 :: acc) rest
    | 'f' => parseStringBody (Char.ofNat 12 :: acc) rest
    | _ => none
  | c :: rest => parseStringBody (c :: acc) rest

/-- Characters that may occur in a JSON number token. -/
def numChar (c : Char) : Bool :=
  c.isDigit || c = '-' || c = '+' || c = '.' || c = 'e' || c = 'E'

/-- Overwrite-or-append for object entries: `json.loads` keeps the first
position and the last value of a duplicated key. -/
def insertEntry (es : List (String × Json)) (k : String) (v : Json) :
    List (String × Json) :=
  match es with
  | [] => [(k, v)]
  | (k', v') :: rest =>
    if k' = k then (k', v) :: rest else (k', v') :: insertEntry rest k v

mutual

def parseVal : Nat → List Char → Option (Json × List Char)
  | 0, _ => none
  | fuel + 1, l =>
    match skipJsonWs l with
    | '{' :: rest =>
      match skipJsonWs rest with
      | '}' :: rest2 => some (Json.obj [], rest2)
      | rest2 => (parseMembers fuel rest2 []).map (fun p => (Json.obj p.1, p.2))
    | '[' :: rest =>
      match skipJsonWs rest with
      | ']' :: rest2 => some (Json.arr [], rest2)
      | rest2 => (parseElems fuel rest2 []).map (fun p => (Json.arr p.1, p.2))
    | '"' :: rest => (parseStringBody [] rest).map (fun p => (Json.str p.1, p.2))
    | 't' :: 'r' :: 'u' :: 'e' :: rest => some (Json.bool true, rest)
    | 'f' :: 'a' :: 'l' :: 's' :: 'e' :: rest => some (Json.bool false, rest)
    | 'n' :: 'u' :: 'l' :: 'l' :: rest => some (Json.null, rest)
    | rest =>
      let tok := rest.takeWhile numChar
      if tok.isEmpty then none
      else (parseDecimal tok).map (fun q => (Json.num q, rest.dropWhile numChar))

/-- Object members after `{` (when the object is not empty). -/
def parseMembers : Nat → List Char → List (String × Json) →
    Option (List (String × Json) × List Char)
  | 0, _, _ => none
  | fuel + 1, l, acc =>
    match skipJsonWs l with
    | '"' :: rest =>
      match parseStringBody [] rest with
      | none => none
      | some (k, rest2) =>
        match skipJsonWs rest2 with
        | ':' :: rest3 =>
          match parseVal fuel rest3 with
          | none => none
          | some (v, rest4) =>
            match skipJsonWs rest4 with
            | ',' :: rest5 => parseMembers fuel rest5 (insertEntry acc k v)
            | '}' :: rest5 => some (insertEntry acc k v, rest5)
            | _ => none
        | _ => none
    | _ => none

/-- Array elements after `[` (when the array is not empty). -/
def parseElems : Nat → List Char → List Json → Option (List Json × List Char)
  | 0, _, _ => none
  | fuel + 1, l, acc =>
    match parseVal fuel l with
    | none => none
    | some (v, rest) =>
      match skipJsonWs rest with
      | ',' :: rest2 => parseElems fuel rest2 (acc ++ [v])
      | ']' :: rest2 => some (acc ++ [v], rest2)
      | _ => none

end

/-- `json.loads`: parse one value and require only whitespace after it. -/
def pyJsonLoads (s : String) : Option Json :=
  match parseVal (2 * s.length + 8) s.data with
  | some (j, rest) => if (skipJsonWs rest).isEmpty then some j else none
  | none => none

/-! ## `catalog/adapters/nintendo.py` -/

def NINTENDO_PLACEHOLDER : String :=
  "https://www.nintendo.com/etc.clientlibs/ncom/clientlibs/clientlib-ncom/resources/img/nintendo_red.svg"

/-- `self.config.locale.replace("_", "-").lower()`. -/
def locFmt (locale : String) : String :=
  pyLowerS (String.mk (locale.data.map (fun c => if c = '_' then '-' else c)))

/-- The container keys probed by `_extract_items_from_api`. -/
def containerKeys : List String := ["products", "items", "results"]

/-- The key loop of `_extract_items_from_api`: first key whose value is a
non-empty list. -/
def probeKeys : List String → Json → Option (List Json)
  | [], _ => none
  | k :: ks, o =>
    match o.get k with
    | some (Json.arr (x :: xs)) => some (x :: xs)
    | _ => probeKeys ks o

/-- `_extract_items_from_api` from the Nintendo adapter. -/
def extract_items_from_api (js : Json) : List Json :=
  match js with
  | Json.obj _ =>
    match probeKeys containerKeys js with
    | some l => l
    | none =>
      match js.get "data" with
      | some (Json.obj des) =>
        match probeKeys containerKeys (Json.obj des) with
        | some l => l
        | none => []
      | _ => []
  | _ => []

/-- The image-list loop of `_normalize_api_item`: the first dict entry
whose `type`/`purpose` contains "box", "pack" or "cover" and whose `url`
is truthy (assignments of falsy urls are overwritten and do not break the
loop, so only this first hit matters). -/
def containsSub (hay needle : List Char) : Bool :=
  (List.range (hay.length + 1)).any (fun i => needle.isPrefixOf (hay.drop i))

def imgKindMatch (img : Json) : Bool :=
  match img with
  | Json.obj _ =>
    let kind := pyLowerS (jStr ((pyOr (img.get "type") (img.get "purpose")).getD (Json.str "")))
    containsSub kind.data "box".data || containsSub kind.data "pack".data ||
      containsSub kind.data "cover".data
  | _ => false

def findPreferredImage (imgs : List Json) : Option Json :=
  (imgs.find? (fun img => imgKindMatch img && oTruthy (img.get "url"))).bind
    (fun img => img.get "url")

/-- `_normalize_api_item` from the Nintendo adapter. -/
def normalize_api_item (locale : String) (it : Json) : Option GameRecord :=
  let nameJ := pyOr (pyOr (pyOr (it.get "title") (it.get "name"))
    (it.get "productTitle")) (some (Json.str ""))
  let name := strip_edition_noise (clean_title (jStr (nameJ.getD Json.null)))
  if name = "" then none
  else
    -- image
    let image1 := pyOr (pyOr (pyOr (it.get "image") (it.get "imageUrl"))
      (it.get "boxArt")) (it.get "heroBanner")
    let image2 :=
      if oTruthy image1 then image1
      else
        let imgsJ := pyOr (pyOr (it.get "images") (it.get "keyImages"))
          (some (Json.arr []))
        match imgsJ with
        | some (Json.arr (i0 :: irest)) =>
          let preferred := findPreferredImage (i0 :: irest)
          if oTruthy preferred then preferred
          else
            match i0 with
            | Json.obj _ => i0.get "url"
            | x => some x
        | _ => image1
    let image := if oTruthy image2 then pyStr (image2.getD Json.null)
      else NINTENDO_PLACEHOLDER
    -- href
    let href1 := pyOr (pyOr (it.get "productUrl") (it.get "url")) (it.get "webUrl")
    let href :=
      if oTruthy href1 then pyStr (href1.getD Json.null)
      else
        let slug := pyOr (it.get "slug") (it.get "seoName")
        let nsuid := pyOr (it.get "nsuid") (it.get "id")
        if oTruthy slug then
          "https://www.nintendo.com/" ++ locFmt locale ++ "/store/products/" ++
            pyStr (slug.getD Json.null) ++ "/"
        else if oTruthy nsuid then
          "https://www.nintendo.com/" ++ locFmt locale ++ "/store/products/" ++
            pyStr (nsuid.getD Json.null) ++ "/"
        else "https://www.nintendo.com/" ++ locFmt locale ++ "/store/"
    -- price
    let price_obj := pyOrObj (it.get "price")
    let display := pyOr (pyOr (price_obj.get "display") (it.get "displayPrice"))
      (it.get "priceDisplay")
    let amount : Option ℚ :=
      match price_obj with
      | Json.obj _ =>
        match pyOr (pyOr (pyOr (price_obj.get "discounted") (price_obj.get "current"))
          (price_obj.get "regular")) (price_obj.get "amount") with
        | none => none
        | some v => pyFloat v
      | _ => none
    let currency : Option String :=
      match price_obj with
      | Json.obj _ =>
        match pyOr (price_obj.get "currency") (price_obj.get "currencyCode") with
        | some (Json.str s) => some s
        | _ => none
      | _ => none
    let price_str :=
      match display with
      | some (Json.str s) => s
      | _ => price_to_string amount currency
    -- platforms
    let platsJ := pyOr (it.get "platforms") (some (Json.arr []))
    let platforms0 : List Json :=
      if oTruthy platsJ then
        match platsJ with
        | some (Json.arr l) => l
        | some (Json.str s) => s.data.map (fun c => Json.str (String.mk [c]))
        | _ => []
      else [Json.str "Switch"]
    let platforms := (platforms0.filter jTruthy).map pyStr
    -- uuid
    let uuidJ := pyOr (pyOr (it.get "nsuid") (it.get "id")) (it.get "productId")
    let uuid := if oTruthy uuidJ then some (pyStr (uuidJ.getD Json.null)) else none
    some (mkGameRecord "nintendo" name price_str image href uuid platforms
      none (some "game"))

/-- `_coerce_to_api_like` from the Nintendo adapter. -/
def coerce_to_api_like (it : Json) (base_url : String) : Json :=
  match it with
  | Json.obj _ =>
    let title := (pyOr (pyOr (pyOr (it.get "title") (it.get "name"))
      (it.get "productTitle")) (some (Json.str ""))).getD (Json.str "")
    let imgPart :=
      if oTruthy (pyOr (it.get "imageUrl") (it.get "image")) then
        [("imageUrl", (pyOr (it.get "imageUrl") (it.get "image")).getD Json.null)]
      else
        let imgsJ := pyOr (pyOr (it.get "images") (it.get "keyImages"))
          (some (Json.arr []))
        if oTruthy imgsJ then [("keyImages", imgsJ.getD Json.null)] else []
    let link := pyOr (pyOr (it.get "url") (it.get "href")) (it.get "productUrl")
    let linkPart :=
      [("productUrl", if oTruthy link then link.getD Json.null else Json.str base_url)]
    let priceJ := pyOr (pyOr (it.get "price") (it.get "displayPrice"))
      (it.get "priceDisplay")
    let pricePart :=
      match priceJ with
      | some (Json.obj o) => [("price", Json.obj o)]
      | some (Json.str s) => [("displayPrice", Json.str s)]
      | _ => []
    let nsuidPart :=
      [("nsuid", (pyOr (pyOr (it.get "nsuid") (it.get "id"))
        (it.get "productId")).getD Json.null)]
    let platsPart :=
      if oTruthy (it.get "platforms") then
        [("platforms", (it.get "platforms").getD Json.null)]
      else []
    Json.obj ([("title", title)] ++ imgPart ++ linkPart ++ pricePart ++
      nsuidPart ++ platsPart)
  | _ => Json.obj []

/-- The recursive walk of `_parse_next_data`: at each dict, normalize the
lists found under the four container keys (in key order), then recurse
into all values in insertion order; at each list, recurse into the
elements.  `fuel` bounds the depth; the caller passes the length of the
source text, which strictly dominates the nesting depth of anything
`json.loads` can produce from it. -/
def walkCollect (locale url : String) : Nat → Json → List GameRecord
  | 0, _ => []
  | fuel + 1, Json.obj es =>
    (["products", "items", "results", "tiles"].flatMap (fun k =>
      match (Json.obj es).get k with
      | some (Json.arr items) =>
        items.filterMap (fun it => normalize_api_item locale (coerce_to_api_like it url))
      | _ => []))
      ++ es.flatMap (fun kv => walkCollect locale url fuel kv.2)
  | fuel + 1, Json.arr xs => xs.flatMap (fun x => walkCollect locale url fuel x)
  | _ + 1, _ => []

/-- A fetched listing page, at the granularity the two sub-parsers consume
it: `nextData` is the content of the first `__NEXT_DATA__` script block
(`_NEXT_RE.search`), `ldBlocks` the contents of all
`application/ld+json` script blocks (`_JSONLD_RE.finditer`). -/
structure PageBlocks where
  url : String
  nextData : Option String
  ldBlocks : List String

/-- `_parse_next_data`: a missing block or a `json.loads` failure yields
no records (the `except` branch returns the empty accumulator). -/
def parse_next_data (locale : String) (pg : PageBlocks) : List GameRecord :=
  match pg.nextData with
  | none => []
  | some s =>
    match pyJsonLoads s with
    | none => []
    | some js => walkCollect locale pg.url (s.length + 1) js

/-- `_normalize_jsonld_item` from the Nintendo adapter (it does not read
the adapter config, so it takes only the page url). -/
def normalize_jsonld_item (url : String) (b : Json) : Option GameRecord :=
  let name := strip_edition_noise (clean_title (jStr
    ((pyOr (b.get "name") (some (Json.str ""))).getD Json.null)))
  if name = "" then none
  else
    let image1 : Option Json :=
      match b.get "image" with
      | some (Json.arr l) => l.head?
      | x => x
    let offers : Json :=
      match pyOrObj (b.get "offers") with
      | Json.arr l =>
        match l.head? with
        | some h => h
        | none => Json.obj []
      | o => o
    let currency : Option String :=
      match offers.get "priceCurrency" with
      | some (Json.str s) => some s
      | _ => none
    let amt : Option ℚ :=
      if offers.hasKey "price" then
        match offers.get "price" with
        | some v => pyFloat v
        | none => none
      else none
    let price_str := price_to_string amt currency
    let href := if oTruthy (b.get "url") then pyStr ((b.get "url").getD Json.null) else url
    let uuidJ := pyOr (pyOr (b.get "sku") (b.get "productID")) (b.get "mpn")
    let uuid := if oTruthy uuidJ then some (pyStr (uuidJ.getD Json.null)) else none
    let image := if oTruthy image1 then pyStr (image1.getD Json.null)
      else NINTENDO_PLACEHOLDER
    some (mkGameRecord "nintendo" name price_str image href uuid ["Switch"]
      none (some "game"))

/-- The per-block body of `_parse_jsonld`: a block that fails `json.loads`
is skipped; a list block is iterated; a dict with a list-valued `@graph`
is filtered by member type; otherwise the dict itself is accepted when
its `@type` is a product/video-game type. -/
def jsonld_block_records (url : String) (src : String) : List GameRecord :=
  match pyJsonLoads src with
  | none => []
  | some block =>
    let blocks := match block with | Json.arr l => l | b => [b]
    blocks.flatMap (fun b =>
      match b with
      | Json.obj _ =>
        let ty := pyLowerS (pyStr ((b.get "@type").getD (Json.str "")))
        match b.get "@graph" with
        | some (Json.arr gs) =>
          gs.filterMap (fun g =>
            match g with
            | Json.obj _ =>
              let t := pyLowerS (pyStr ((g.get "@type").getD (Json.str "")))
              if t = "product" ∨ t = "videogame" then
                normalize_jsonld_item url g
              else none
            | _ => none)
        | _ =>
          if ty = "product" ∨ ty = "videogame" then
            (normalize_jsonld_item url b).toList
          else []
      | _ => [])

/-- `_parse_jsonld` over all blocks of a page. -/
def parse_jsonld (url : String) (blocks : List String) : List GameRecord :=
  blocks.flatMap (jsonld_block_records url)

/-- `_iter_list_page`: both sub-parsers run on every page, and their
records are concatenated (`__NEXT_DATA__` first). -/
def iter_list_page (locale : String) (pg : PageBlocks) : List GameRecord :=
  parse_next_data locale pg ++ parse_jsonld pg.url pg.ldBlocks

/-- The number of items of a page that normalize successfully — the
quantity the `count` variable of `_iter_search_api` holds when the
stop condition `count < page_size` is tested. -/
def normCount (locale : String) (js : Json) : Nat :=
  ((extract_items_from_api js).filterMap (normalize_api_item locale)).length

/-- The pagination loop of `_iter_search_api` for one query: the list of
page indices fetched, starting at `start`, with `fuel` bounding the
unbounded `while True`.  After fetching page `p` the loop stops iff
fewer than `pageSize` of its items yielded records. -/
def searchPagesFetched (locale : String) (pages : Nat → Json) (pageSize : Nat) :
    Nat → Nat → List Nat
  | 0, _ => []
  | fuel + 1, start =>
    start ::
      (if normCount locale (pages start) < pageSize then []
       else searchPagesFetched locale pages pageSize fuel (start + 1))



/-! ## Spec-side definitions

These definitions follow the wording of the specification / claims, for
refinement-style comparison with the source-translated definitions above. -/

/-- The letter bucket as claim C9 words it: the lower-cased first character
of the name itself (no stripping) when it is `a`–`z`, else `_`. -/
def claimLetterBucket (name : String) : String :=
  match name.data with
  | [] => "_"
  | c :: _ =>
    let ch := pyLowerChar c
    if 'a' ≤ ch ∧ ch ≤ 'z' then String.mk [ch] else "_"

/-- Item-array extraction as claim C3 words it: the array sits at the
first PRESENT key of the priority list; only if none of the keys is
present at the top level is `data` probed. -/
def claimExtractItems (js : Json) : List Json :=
  match containerKeys.find? (fun k => js.hasKey k) with
  | some k =>
    match js.get k with
    | some (Json.arr l) => l
    | _ => []
  | none =>
    match js.get "data" with
    | some d =>
      match containerKeys.find? (fun k => d.hasKey k) with
      | some k =>
        match d.get k with
        | some (Json.arr l) => l
        | _ => []
      | none => []
    | none => []

/-- Whether `o.get k` is a non-empty list. -/
def nonemptyListAt (o : Json) (k : String) : Bool :=
  match o.get k with
  | some (Json.arr (_ :: _)) => true
  | _ => false

def listAt (o : Json) (k : String) : List Json :=
  match o.get k with
  | some (Json.arr l) => l
  | _ => []

/-- Item-array extraction as amended: the first key of the priority list
whose value is a NON-EMPTY list; if there is none (even when some key is
present with an empty or non-list value), the same rule is applied one
level deeper inside `data`; otherwise no items. -/
def amendedExtractItems (js : Json) : List Json :=
  match js with
  | Json.obj _ =>
    match containerKeys.find? (fun k => nonemptyListAt js k) with
    | some k => listAt js k
    | none =>
      match js.get "data" with
      | some (Json.obj des) =>
        match containerKeys.find? (fun k => nonemptyListAt (Json.obj des) k) with
        | some k => listAt (Json.obj des) k
        | none => []
      | _ => []
  | _ => []

/-- "Alphanumeric" as the claims use it (ASCII letters and digits). -/
def isAlnumChar (c : Char) : Bool :=
  ('A' ≤ c && c ≤ 'Z') || ('a' ≤ c && c ≤ 'z') || ('0' ≤ c && c ≤ '9')

/-- The canonical key as claim C6 words it: the edition-noise-stripped
title, lower-cased, with every non-alphanumeric character removed. -/
def specCanonicalKey (name : String) : String :=
  String.mk ((pyLowerS (strip_edition_noise name)).data.filter isAlnumChar)

/-- First-seen deduplication, keeping the first occurrence of each value
and dropping the later duplicates (the claims' notion of "first-seen
order"). -/
def firstOccurrences : List String → List String
  | [] => []
  | x :: xs => x :: firstOccurrences (xs.filter (fun y => !(y == x)))
termination_by l => l.length
decreasing_by
  simp only [List.length_cons]
  exact Nat.lt_succ_of_le (List.length_filter_le _ _)

/-- The entries of the input platform list after stringification,
stripping, and dropping of entries that strip to empty. -/
def cleanedPlatforms (v : List String) : List String :=
  (v.map pyStripS).filter (fun x => !(x == ""))

/-- No two adjacent whitespace characters. -/
def NoWsRun (l : List Char) : Prop :=
  List.Chain' (fun a b => ¬(pySpace a = true ∧ pySpace b = true)) l

/-! ## Concrete inputs used by the claims -/

def c1Block : String :=
  "\x7b\"@type\": \"VideoGame\", \"name\": \"Super Game™: Deluxe Edition\", \"offers\": \x7b\"price\": \"29.99\", \"priceCurrency\": \"USD\"\x7d\x7d"

def c1Page : PageBlocks :=
  { url := "https://www.nintendo.com/en-us/store/games", nextData := none,
    ldBlocks := [c1Block] }


def c2Pages : Nat → Json := fun _ =>
  Json.obj [("products", Json.arr [Json.obj [("title", Json.str "Zelda")],
    Json.obj [("title", Json.str "")]])]

/-- A search-API page on which every raw item normalizes successfully. -/
def c2GoodPages : Nat → Json := fun _ =>
  Json.obj [("products", Json.arr [Json.obj [("title", Json.str "Mario")],
    Json.obj [("title", Json.str "Zelda")]])]

/-- A response whose first PRESENT container key holds an empty array while
a later key holds the items. -/
def c3Js : Json :=
  Json.obj [("products", Json.arr []), ("items", Json.arr [Json.str "x"])]

/-- A response with an (empty) container key present at the top level and
the items one level deeper inside `data`. -/
def c3Js2 : Json :=
  Json.obj [("products", Json.arr []),
    ("data", Json.obj [("items", Json.arr [Json.str "y"])])]

/-- A valid linked-data block used by the resilience scenario. -/
def c4LdBlock : String :=
  "\x7b\"@type\": \"VideoGame\", \"name\": \"Metroid\"\x7d"

/-- A page whose embedded-data block is not valid JSON but whose
linked-data block is valid. -/
def c4Page : PageBlocks :=
  { url := "https://www.nintendo.com/en-us/store/games", nextData := some "\x7boops",
    ldBlocks := [c4LdBlock] }



/-! ## Helper lemmas: trimming -/

theorem head?_dropWhile (p : Char → Bool) (l : List Char) (c : Char)
    (h : (l.dropWhile p).head? = some c) : p c = false := by
  induction l with
  | nil => simp [List.dropWhile] at h
  | cons a l ih =>
    by_cases hp : p a
    · simpa [List.dropWhile, hp] using ih (by simpa [List.dropWhile, hp] using h)
    · simp [List.dropWhile, hp] at h
      simpa [h] using hp

theorem dropWhile_eq_self_of_head (p : Char → Bool) (l : List Char)
    (h : ∀ c, l.head? = some c → p c = false) : l.dropWhile p = l := by
  cases l with
  | nil => rfl
  | cons a l => simp [List.dropWhile, h a rfl]

theorem getLast?_trimRightBy (p : Char → Bool) (l : List Char) (c : Char)
    (h : (trimRightBy p l).getLast? = some c) : p c = false := by
  rw [trimRightBy, List.getLast?_reverse] at h
  exact head?_dropWhile p l.reverse c h

theorem trimRightBy_eq_self_of_getLast (p : Char → Bool) (l : List Char)
    (h : ∀ c, l.getLast? = some c → p c = false) : trimRightBy p l = l := by
  rw [trimRightBy, dropWhile_eq_self_of_head p l.reverse
    (by intro c hc; exact h c (by rwa [List.head?_reverse] at hc)), List.reverse_reverse]

theorem isPrefix_trimRightBy (p : Char → Bool) (l : List Char) :
    trimRightBy p l <+: l := by
  have h : l.reverse.dropWhile p <:+ l.reverse := List.dropWhile_suffix p
  have h2 := (@List.reverse_prefix Char (l.reverse.dropWhile p) l.reverse).mpr h
  rw [trimRightBy]
  rwa [List.reverse_reverse] at h2

theorem head?_of_prefix {l m : List Char} (h : m <+: l) (c : Char)
    (hc : m.head? = some c) : l.head? = some c := by
  obtain ⟨t, rfl⟩ := h
  cases m with
  | nil => simp at hc
  | cons a m => simpa using hc

theorem head?_trimBy (p : Char → Bool) (l : List Char) (c : Char)
    (h : (trimBy p l).head? = some c) : p c = false := by
  have := head?_of_prefix (isPrefix_trimRightBy p (trimLeftBy p l)) c h
  exact head?_dropWhile p l c this

theorem getLast?_trimBy (p : Char → Bool) (l : List Char) (c : Char)
    (h : (trimBy p l).getLast? = some c) : p c = false :=
  getLast?_trimRightBy p (trimLeftBy p l) c h

theorem trimBy_idem (p : Char → Bool) (l : List Char) :
    trimBy p (trimBy p l) = trimBy p l := by
  rw [trimBy, trimLeftBy,
    dropWhile_eq_self_of_head p (trimBy p l) (head?_trimBy p l),
    trimRightBy_eq_self_of_getLast p (trimBy p l) (getLast?_trimBy p l)]

theorem pyStripS_idem (s : String) : pyStripS (pyStripS s) = pyStripS s := by
  simp [pyStripS, trimBy_idem]

theorem mem_trimBy (p : Char → Bool) (l : List Char) (c : Char)
    (h : c ∈ trimBy p l) : c ∈ l := by
  have h1 : c ∈ trimLeftBy p l := (isPrefix_trimRightBy p _).subset h
  exact (List.dropWhile_suffix p).subset h1

/-! ## Helper lemmas: platform deduplication -/


theorem platformsCleanGo_mem_pairwise (v : List String) : ∀ seen,
    (∀ x ∈ platformsCleanGo seen v,
      pyLowerS x ∉ seen ∧ x ≠ "" ∧ ∃ p, p ∈ v ∧ x = pyStripS p)
    ∧ List.Pairwise (fun a b => pyLowerS a ≠ pyLowerS b)
        (platformsCleanGo seen v) := by
  induction v with
  | nil =>
    intro seen
    refine ⟨fun x hx => by simp [platformsCleanGo] at hx, by simp [platformsCleanGo]⟩
  | cons p ps ih =>
    intro seen
    by_cases h1 : pyStripS p = ""
    · refine ⟨fun x hx => ?_, ?_⟩
      · obtain ⟨hs, hne, q, hq, hxq⟩ :=
          ((ih seen).1 x (by simpa [platformsCleanGo, h1] using hx))
        exact ⟨hs, hne, q, List.mem_cons_of_mem _ hq, hxq⟩
      · simpa [platformsCleanGo, h1] using (ih seen).2
    · by_cases h2 : pyLowerS (pyStripS p) ∈ seen
      · refine ⟨fun x hx => ?_, ?_⟩
        · obtain ⟨hs, hne, q, hq, hxq⟩ :=
            ((ih seen).1 x (by simpa [platformsCleanGo, h1, h2] using hx))
          exact ⟨hs, hne, q, List.mem_cons_of_mem _ hq, hxq⟩
        · simpa [platformsCleanGo, h1, h2] using (ih seen).2
      · have hgo : platformsCleanGo seen (p :: ps)
            = pyStripS p :: platformsCleanGo (pyLowerS (pyStripS p) :: seen) ps := by
          simp [platformsCleanGo, h1, h2]
        refine ⟨fun x hx => ?_, ?_⟩
        · rw [hgo, List.mem_cons] at hx
          rcases hx with rfl | hx
          · exact ⟨h2, h1, p, List.mem_cons_self p ps, rfl⟩
          · obtain ⟨hs, hne, q, hq, hxq⟩ := ((ih _).1 x hx)
            refine ⟨fun hmem => hs (List.mem_cons_of_mem _ hmem), hne,
              q, List.mem_cons_of_mem _ hq, hxq⟩
        · rw [hgo]
          refine List.Pairwise.cons (fun y hy => ?_) (ih _).2
          have := ((ih _).1 y hy).1
          intro heq
          exact this (heq ▸ List.mem_cons_self _ _)

theorem platformsCleanGo_sublist (v : List String) : ∀ seen,
    (platformsCleanGo seen v).Sublist (cleanedPlatforms v) := by
  induction v with
  | nil => intro seen; simp [platformsCleanGo, cleanedPlatforms]
  | cons p ps ih =>
    intro seen
    by_cases h1 : pyStripS p = ""
    · simpa [platformsCleanGo, cleanedPlatforms, h1] using ih seen
    · by_cases h2 : pyLowerS (pyStripS p) ∈ seen
      · have : cleanedPlatforms (p :: ps) = pyStripS p :: cleanedPlatforms ps := by
          simp [cleanedPlatforms, h1]
        rw [this]
        exact List.Sublist.cons _ (by simpa [platformsCleanGo, h1, h2] using ih seen)
      · have hc : cleanedPlatforms (p :: ps) = pyStripS p :: cleanedPlatforms ps := by
          simp [cleanedPlatforms, h1]
        have hgo : platformsCleanGo seen (p :: ps)
            = pyStripS p :: platformsCleanGo (pyLowerS (pyStripS p) :: seen) ps := by
          simp [platformsCleanGo, h1, h2]
        rw [hc, hgo]
        exact List.Sublist.cons₂ _ (ih _)

theorem filter_not_mem_cons (L : List String) (k : String) (seen : List String) :
    (L.filter (fun y => !(decide (y ∈ seen)))).filter (fun y => !(y == k))
      = L.filter (fun y => !(decide (y ∈ k :: seen))) := by
  rw [List.filter_filter]
  apply List.filter_congr
  intro y _
  by_cases hy : y = k <;> by_cases hs : y ∈ seen <;> simp [hy, hs]

theorem platformsCleanGo_lower (v : List String) : ∀ seen,
    (platformsCleanGo seen v).map pyLowerS
      = firstOccurrences (((cleanedPlatforms v).map pyLowerS).filter
          (fun y => !(decide (y ∈ seen)))) := by
  induction v with
  | nil => intro seen; simp [platformsCleanGo, cleanedPlatforms, firstOccurrences]
  | cons p ps ih =>
    intro seen
    by_cases h1 : pyStripS p = ""
    · simpa [platformsCleanGo, cleanedPlatforms, h1] using ih seen
    · have hc : cleanedPlatforms (p :: ps) = pyStripS p :: cleanedPlatforms ps := by
        simp [cleanedPlatforms, h1]
    
      by_cases h2 : pyLowerS (pyStripS p) ∈ seen
      · rw [hc]
        have : ((pyStripS p :: cleanedPlatforms ps).map pyLowerS).filter
            (fun y => !(decide (y ∈ seen)))
            = ((cleanedPlatforms ps).map pyLowerS).filter
              (fun y => !(decide (y ∈ seen))) := by
          simp [h2]
        rw [this]
        simpa [platformsCleanGo, h1, h2] using ih seen
      · have hgo : platformsCleanGo seen (p :: ps)
            = pyStripS p :: platformsCleanGo (pyLowerS (pyStripS p) :: seen) ps := by
          simp [platformsCleanGo, h1, h2]
        rw [hgo, hc]
        have hfil : ((pyStripS p :: cleanedPlatforms ps).map pyLowerS).filter
            (fun y => !(decide (y ∈ seen)))
            = pyLowerS (pyStripS p) ::
              ((cleanedPlatforms ps).map pyLowerS).filter
                (fun y => !(decide (y ∈ seen))) := by
          simp [h2]
        rw [hfil]
        simp only [List.map_cons, firstOccurrences, filter_not_mem_cons]
        exact congrArg _ (ih _)

theorem platformsClean_lower (v : List String) :
    (platformsClean v).map pyLowerS
      = firstOccurrences ((cleanedPlatforms v).map pyLowerS) := by
  have := platformsCleanGo_lower v []
  simpa [platformsClean] using this

/-! ## Helper lemmas: dedup clustering -/

theorem bucketsGet_bucketAdd (bs : List (String × List GameRecord))
    (kAdd kGet : String) (r : GameRecord) :
    bucketsGet (bucketAdd bs kAdd r) kGet
      = if kGet = kAdd then bucketsGet bs kGet ++ [r] else bucketsGet bs kGet := by
  induction bs with
  | nil =>
    by_cases h : kGet = kAdd
    · subst h; simp [bucketAdd, bucketsGet]
    · simp [bucketAdd, bucketsGet, h, Ne.symm h]
  | cons e rest ih =>
    obtain ⟨k', l⟩ := e
    by_cases h1 : k' = kAdd
    · subst h1
      by_cases h2 : kGet = k'
      · subst h2; simp [bucketAdd, bucketsGet]
      · simp [bucketAdd, bucketsGet, h2, Ne.symm h2]
    · by_cases h2 : k' = kGet
      · subst h2
        simp [bucketAdd, bucketsGet, h1, Ne.symm h1]
      · simp [bucketAdd, bucketsGet, h1, h2, ih]

theorem bucketsGet_foldl (rs : List GameRecord) :
    ∀ (bs : List (String × List GameRecord)) (k : String),
    bucketsGet (rs.foldl (fun bs r => bucketAdd bs (canonical_key r.name) r) bs) k
      = bucketsGet bs k ++ rs.filter (fun r => canonical_key r.name == k) := by
  induction rs with
  | nil => intro bs k; simp
  | cons r rs ih =>
    intro bs k
    rw [List.foldl_cons, ih, bucketsGet_bucketAdd]
    by_cases h : k = canonical_key r.name
    · simp [List.filter_cons, h, beq_iff_eq, List.append_assoc]
    · have : (canonical_key r.name == k) = false := by
        simp [beq_iff_eq]; exact fun he => h he.symm
      simp [List.filter_cons, this, h]

theorem bucketsGet_cluster (rs : List GameRecord) (k : String) :
    bucketsGet (cluster rs) k = rs.filter (fun r => canonical_key r.name == k) := by
  rw [cluster, bucketsGet_foldl]
  simp [bucketsGet]


/-! ## Helper lemmas: whitespace collapsing and `clean_title` idempotence -/

theorem collapseGo_nil (b : Bool) : collapseGo b [] = [] := rfl

theorem collapseGo_cons_ws_true {a : Char} (cs : List Char) (ha : pySpace a = true) :
    collapseGo true (a :: cs) = collapseGo true cs := by
  conv_lhs => rw [collapseGo]
  simp [ha]

theorem collapseGo_cons_ws_false {a : Char} (cs : List Char) (ha : pySpace a = true) :
    collapseGo false (a :: cs)
      = (if wsLookahead cs then ' ' else a) :: collapseGo true cs := by
  conv_lhs => rw [collapseGo]
  simp [ha]

theorem collapseGo_cons_nws {a : Char} (cs : List Char) (ha : pySpace a = false)
    (b : Bool) : collapseGo b (a :: cs) = a :: collapseGo false cs := by
  conv_lhs => rw [collapseGo]
  simp [ha]

theorem mem_of_getLast?Eq : ∀ {l : List Char} {a : Char}, l.getLast? = some a → a ∈ l := by
  intro l
  induction l with
  | nil => intro a h; simp at h
  | cons b m ih =>
    intro a h
    cases m with
    | nil => simp at h; simp [h]
    | cons c m' =>
      rw [List.getLast?_cons_cons] at h
      exact List.mem_cons_of_mem _ (ih h)


theorem collapseGo_true_head (l : List Char) :
    ∀ c, (collapseGo true l).head? = some c → pySpace c = false := by
  induction l with
  | nil => intro c hc; simp [collapseGo_nil] at hc
  | cons a cs ih =>
    intro c hc
    by_cases ha : pySpace a
    · exact ih c (by rwa [collapseGo_cons_ws_true cs ha] at hc)
    · rw [collapseGo_cons_nws cs (by simpa using ha)] at hc
      simp at hc
      rw [← hc]
      simpa using ha

theorem mem_collapseGo (l : List Char) :
    ∀ b c, c ∈ collapseGo b l → c ∈ l ∨ c = ' ' := by
  induction l with
  | nil => intro b c hc; simp [collapseGo_nil] at hc
  | cons a cs ih =>
    intro b c hc
    by_cases ha : pySpace a
    · cases b with
      | true =>
        rcases ih true c (by rwa [collapseGo_cons_ws_true cs ha] at hc) with h | h
        · exact Or.inl (List.mem_cons_of_mem _ h)
        · exact Or.inr h
      | false =>
        rw [collapseGo_cons_ws_false cs ha, List.mem_cons] at hc
        rcases hc with hc | hc
        · by_cases hl : wsLookahead cs
          · simp [hl] at hc; exact Or.inr hc
          · simp [hl] at hc; exact Or.inl (by simp [hc])
        · rcases ih true c hc with h | h
          · exact Or.inl (List.mem_cons_of_mem _ h)
          · exact Or.inr h
    · rw [collapseGo_cons_nws cs (by simpa using ha), List.mem_cons] at hc
      rcases hc with rfl | hc
      · exact Or.inl (List.mem_cons_self _ _)
      · rcases ih false c hc with h | h
        · exact Or.inl (List.mem_cons_of_mem _ h)
        · exact Or.inr h

theorem collapseGo_ne_nil (l : List Char) :
    ∀ b, (∃ c ∈ l, pySpace c = false) → collapseGo b l ≠ [] := by
  induction l with
  | nil => intro b h; obtain ⟨c, hc, _⟩ := h; simp at hc
  | cons a cs ih =>
    intro b h
    by_cases ha : pySpace a
    · cases b with
      | true =>
        rw [collapseGo_cons_ws_true cs ha]
        apply ih true
        obtain ⟨c, hc, hcw⟩ := h
        rcases List.mem_cons.mp hc with rfl | hmem
        · rw [ha] at hcw; cases hcw
        · exact ⟨c, hmem, hcw⟩
      | false => rw [collapseGo_cons_ws_false cs ha]; simp
    · rw [collapseGo_cons_nws cs (by simpa using ha)]; simp

theorem getLast?_cons_of_ne_nil {a : Char} {l : List Char} (h : l ≠ []) :
    (a :: l).getLast? = l.getLast? := by
  cases l with
  | nil => exact absurd rfl h
  | cons b m => exact List.getLast?_cons_cons

theorem collapseGo_getLast (l : List Char) :
    ∀ b c0, l.getLast? = some c0 → pySpace c0 = false →
      ∀ c, (collapseGo b l).getLast? = some c → pySpace c = false := by
  induction l with
  | nil => intro b c0 h0; simp at h0
  | cons a cs ih =>
    intro b c0 h0 h0w c hc
    cases cs with
    | nil =>
      simp at h0
      subst h0
      by_cases ha : pySpace a
      · rw [ha] at h0w; cases h0w
      · rw [collapseGo_cons_nws [] (by simpa using ha), collapseGo_nil] at hc
        simp at hc
        rw [← hc]
        exact h0w
    | cons c2 cs' =>
      have h0' : (c2 :: cs').getLast? = some c0 := by
        rwa [List.getLast?_cons_cons] at h0
      have hmem : c0 ∈ c2 :: cs' := mem_of_getLast?Eq h0'
      have hne : collapseGo true (c2 :: cs') ≠ [] :=
        collapseGo_ne_nil _ true ⟨c0, hmem, h0w⟩
      have hnef : collapseGo false (c2 :: cs') ≠ [] :=
        collapseGo_ne_nil _ false ⟨c0, hmem, h0w⟩
      by_cases ha : pySpace a
      · cases b with
        | true =>
          rw [collapseGo_cons_ws_true _ ha] at hc
          exact ih true c0 h0' h0w c hc
        | false =>
          rw [collapseGo_cons_ws_false _ ha, getLast?_cons_of_ne_nil hne] at hc
          exact ih true c0 h0' h0w c hc
      · rw [collapseGo_cons_nws _ (by simpa using ha),
          getLast?_cons_of_ne_nil hnef] at hc
        exact ih false c0 h0' h0w c hc

theorem collapseGo_chain (l : List Char) : ∀ b, NoWsRun (collapseGo b l) := by
  induction l with
  | nil => intro b; simp [collapseGo_nil, NoWsRun]
  | cons a cs ih =>
    intro b
    by_cases ha : pySpace a
    · cases b with
      | true => rw [collapseGo_cons_ws_true cs ha]; exact ih true
      | false =>
        rw [collapseGo_cons_ws_false cs ha]
        rw [NoWsRun, List.chain'_cons']
        refine ⟨fun y hy => ?_, ih true⟩
        have : pySpace y = false := collapseGo_true_head cs y hy
        simp [this]
    · rw [collapseGo_cons_nws cs (by simpa using ha)]
      rw [NoWsRun, List.chain'_cons']
      refine ⟨fun y hy => ?_, ih false⟩
      simp [ha]

theorem collapseGo_eq_self (l : List Char) (hch : NoWsRun l) :
    collapseGo false l = l ∧
      ((∀ c, l.head? = some c → pySpace c = false) → collapseGo true l = l) := by
  induction l with
  | nil => exact ⟨rfl, fun _ => rfl⟩
  | cons a cs ih =>
    have hch' : NoWsRun cs := (List.chain'_cons'.mp hch).2
    have hR := (List.chain'_cons'.mp hch).1
    obtain ⟨ih1, ih2⟩ := ih hch'
    by_cases ha : pySpace a
    · have hhead : ∀ c, cs.head? = some c → pySpace c = false := by
        intro c hc
        have := hR c (by simp [hc])
        by_contra hcw
        exact this ⟨ha, by simpa using hcw⟩
      have hlook : wsLookahead cs = false := by
        cases cs with
        | nil => rfl
        | cons c2 _ => exact hhead c2 rfl
      constructor
      · rw [collapseGo_cons_ws_false cs ha, hlook, ih2 hhead]
        simp
      · intro hhd
        have := hhd a rfl
        rw [ha] at this; cases this
    · constructor
      · rw [collapseGo_cons_nws cs (by simpa using ha), ih1]
      · intro _
        rw [collapseGo_cons_nws cs (by simpa using ha), ih1]

theorem collapse_trim_head {m : List Char}
    (hm : ∀ c, m.head? = some c → pySpace c = false) :
    ∀ c, (collapseGo false m).head? = some c → pySpace c = false := by
  cases m with
  | nil => intro c hc; simp [collapseGo_nil] at hc
  | cons a cs =>
    have ha : pySpace a = false := hm a rfl
    intro c hc
    rw [collapseGo_cons_nws cs ha] at hc
    simp at hc
    rw [← hc]
    exact ha

/-- Idempotence of the `clean_title` pipeline, at the list level. -/
theorem cleanL_idem (l0 : List Char) :
    collapseGo false (trimBy pySpace
      ((collapseGo false (trimBy pySpace (l0.filter (fun c => !isMark c)))).filter
        (fun c => !isMark c)))
      = collapseGo false (trimBy pySpace (l0.filter (fun c => !isMark c))) := by
  generalize hm : trimBy pySpace (l0.filter (fun c => !isMark c)) = m
  have hmem : ∀ c ∈ m, (!isMark c) = true := by
    intro c hc
    rw [← hm] at hc
    exact (List.mem_filter.mp (mem_trimBy pySpace _ c hc)).2
  have hhead_m : ∀ c, m.head? = some c → pySpace c = false := by
    intro c hc
    rw [← hm] at hc
    exact head?_trimBy pySpace _ c hc
  have hlast_m : ∀ c, m.getLast? = some c → pySpace c = false := by
    intro c hc
    rw [← hm] at hc
    exact getLast?_trimBy pySpace _ c hc
  have hfil : (collapseGo false m).filter (fun c => !isMark c) = collapseGo false m := by
    rw [List.filter_eq_self]
    intro c hc
    rcases mem_collapseGo m false c hc with h | rfl
    · exact hmem c h
    · decide
  have hhead : ∀ c, (collapseGo false m).head? = some c → pySpace c = false :=
    collapse_trim_head hhead_m
  have hlast : ∀ c, (collapseGo false m).getLast? = some c → pySpace c = false := by
    intro c hc
    cases hml : m.getLast? with
    | none =>
      have hnil : m = [] := by simpa using hml
      rw [hnil, collapseGo_nil] at hc
      simp at hc
    | some c0 =>
      exact collapseGo_getLast m false c0 hml (hlast_m c0 hml) c hc
  have htrim : trimBy pySpace (collapseGo false m) = collapseGo false m := by
    rw [trimBy, trimLeftBy, dropWhile_eq_self_of_head pySpace _ hhead,
      trimRightBy_eq_self_of_getLast pySpace _ hlast]
  rw [hfil, htrim]
  exact (collapseGo_eq_self _ (collapseGo_chain m false)).1

theorem clean_title_idem (s : String) :
    clean_title (clean_title s) = clean_title s := by
  exact congrArg String.mk (cleanL_idem s.data)

theorem strip_edition_noise_clean (s : String) :
    strip_edition_noise (clean_title s) = strip_edition_noise s := by
  rw [strip_edition_noise, strip_edition_noise, clean_title_idem]

/-! ## Helper lemmas: pagination -/

theorem mem_searchPagesFetched (locale : String) (pages : Nat → Json) (ps : Nat) :
    ∀ (fuel start m : Nat),
      m ∈ searchPagesFetched locale pages ps fuel start ↔
        start ≤ m ∧ m < start + fuel ∧
          ∀ q, start ≤ q → q < m → ps ≤ normCount locale (pages q) := by
  intro fuel
  induction fuel with
  | zero =>
    intro start m
    simp only [searchPagesFetched, List.not_mem_nil, false_iff]
    intro h
    omega
  | succ fuel ih =>
    intro start m
    simp only [searchPagesFetched]
    by_cases hstop : normCount locale (pages start) < ps
    · simp only [hstop, if_true, List.mem_singleton]
      constructor
      · rintro rfl
        exact ⟨Nat.le_refl _, by omega, fun q hq1 hq2 => by omega⟩
      · rintro ⟨h1, _, h3⟩
        by_contra hne
        have hlt : start < m := by omega
        have := h3 start (Nat.le_refl _) hlt
        omega
    · simp only [hstop, if_false, List.mem_cons]
      rw [ih (start + 1) m]
      constructor
      · rintro (rfl | ⟨h1, h2, h3⟩)
        · exact ⟨Nat.le_refl _, by omega, fun q hq1 hq2 => by omega⟩
        · refine ⟨by omega, by omega, fun q hq1 hq2 => ?_⟩
          rcases Nat.eq_or_lt_of_le hq1 with rfl | hq'
          · omega
          · exact h3 q (by omega) hq2
      · rintro ⟨h1, h2, h3⟩
        rcases Nat.eq_or_lt_of_le h1 with rfl | h1'
        · exact Or.inl rfl
        · exact Or.inr ⟨by omega, by omega, fun q hq1 hq2 => h3 q (by omega) hq2⟩

/-! ## Helper lemmas: item-array extraction -/

theorem nonemptyListAt_true {o : Json} {k : String} (h : nonemptyListAt o k = true) :
    ∃ x xs, o.get k = some (Json.arr (x :: xs)) := by
  unfold nonemptyListAt at h
  rcases hg : o.get k with _ | v
  · rw [hg] at h; cases h
  · rw [hg] at h
    cases v with
    | arr elems =>
      cases elems with
      | nil => cases h
      | cons x xs => exact ⟨x, xs, rfl⟩
    | null => cases h
    | bool b => cases h
    | num q => cases h
    | str s2 => cases h
    | obj es => cases h

theorem probeKeys_cons_neg (o : Json) (k : String) (ks : List String)
    (h : nonemptyListAt o k = false) : probeKeys (k :: ks) o = probeKeys ks o := by
  unfold nonemptyListAt at h
  rcases hg : o.get k with _ | v
  · simp [probeKeys, hg]
  · cases v with
    | arr elems =>
      cases elems with
      | nil => simp [probeKeys, hg]
      | cons x xs => rw [hg] at h; simp at h
    | null => simp [probeKeys, hg]
    | bool b => simp [probeKeys, hg]
    | num q => simp [probeKeys, hg]
    | str s2 => simp [probeKeys, hg]
    | obj es => simp [probeKeys, hg]

theorem probeKeys_cons_pos (o : Json) (k : String) (ks : List String)
    (x : Json) (xs : List Json) (hg : o.get k = some (Json.arr (x :: xs))) :
    probeKeys (k :: ks) o = some (x :: xs) := by
  simp [probeKeys, hg]

theorem probeKeys_eq_find (ks : List String) (o : Json) :
    probeKeys ks o
      = (ks.find? (fun k => nonemptyListAt o k)).map (fun k => listAt o k) := by
  induction ks with
  | nil => rfl
  | cons k ks ih =>
    by_cases h : nonemptyListAt o k
    · obtain ⟨x, xs, hg⟩ := nonemptyListAt_true h
      rw [probeKeys_cons_pos o k ks x xs hg, List.find?_cons_of_pos _ h]
      simp [listAt, hg]
    · have hfalse : nonemptyListAt o k = false := by simpa using h
      rw [probeKeys_cons_neg o k ks hfalse,
        List.find?_cons_of_neg _ (by simp [hfalse]), ih]

theorem extract_eq_amended (js : Json) :
    extract_items_from_api js = amendedExtractItems js := by
  cases js with
  | obj es =>
    simp only [extract_items_from_api, amendedExtractItems,
      probeKeys_eq_find containerKeys]
    cases hf : containerKeys.find? (fun k => nonemptyListAt (Json.obj es) k) with
    | some k => simp
    | none =>
      simp only [Option.map_none']
      cases hd : (Json.obj es).get "data" with
      | none => rfl
      | some d =>
        cases d with
        | obj des =>
          simp only [probeKeys_eq_find containerKeys]
          cases hf2 : containerKeys.find? (fun k => nonemptyListAt (Json.obj des) k) <;>
            simp
        | null => rfl
        | bool b => rfl
        | num q => rfl
        | str s2 => rfl
        | arr l => rfl
  | null => rfl
  | bool b => rfl
  | num q => rfl
  | str s2 => rfl
  | arr l => rfl

/-! ## Helper lemmas: letter bucket and canonical key -/

theorem letter_bucket_eq_claim_on_strip (s : String) :
    letter_bucket s = claimLetterBucket (pyStripS s) := rfl

theorem toNat_ofNatAux (n : Nat) (h : n.isValidChar) :
    (Char.ofNatAux n h).toNat = n := by
  simp [Char.ofNatAux, Char.toNat, UInt32.ofNatCore, UInt32.toNat, BitVec.toNat_ofNatLt]

theorem pyLowerChar_toNat (c : Char) :
    (pyLowerChar c).toNat
      = if 65 ≤ c.toNat ∧ c.toNat ≤ 90 then c.toNat + 32 else c.toNat := by
  unfold pyLowerChar
  split
  · rw [toNat_ofNatAux]
  · rfl

theorem pyLowerChar_not_upper (c : Char) :
    ¬(65 ≤ (pyLowerChar c).toNat ∧ (pyLowerChar c).toNat ≤ 90) := by
  rw [pyLowerChar_toNat]
  by_cases h : 65 ≤ c.toNat ∧ c.toNat ≤ 90
  · rw [if_pos h]; omega
  · rw [if_neg h]; exact h

theorem isLowerAlnum_eq_isAlnumChar (x : Char)
    (hnu : ¬(65 ≤ x.toNat ∧ x.toNat ≤ 90)) : isLowerAlnum x = isAlnumChar x := by
  by_cases hA : 'A' ≤ x
  · have hZ : ¬(x ≤ 'Z') := fun hz => hnu ⟨hA, hz⟩
    simp [isLowerAlnum, isAlnumChar, hA, hZ]
  · simp [isLowerAlnum, isAlnumChar, hA]

theorem canonical_key_eq_spec (s : String) : canonical_key s = specCanonicalKey s := by
  unfold canonical_key specCanonicalKey pyLowerS
  apply congrArg String.mk
  apply List.filter_congr
  intro x hx
  obtain ⟨c, _, rfl⟩ := List.mem_map.mp hx
  exact isLowerAlnum_eq_isAlnumChar _ (pyLowerChar_not_upper c)

/-! ## Claim theorems -/

/-- C1 (counterexample): on the listing page of the end-to-end scenario —
one `application/ld+json` block of type `VideoGame` with name
`"Super Game™: Deluxe Edition"`, offers `price "29.99"` / `USD`, and no
image — the single record produced has name `"Super Game:"` (the colon
survives the edition-noise strip, whose final `.strip(" -–—")` removes
only spaces and dashes), not `"Super Game"` as the claim states. -/
theorem c1_name_counterexample :
    (iter_list_page "en-US" c1Page).map GameRecord.name = ["Super Game:"] ∧
      (iter_list_page "en-US" c1Page).map GameRecord.name ≠ ["Super Game"] := by
  constructor
  · decide
  · decide

/-- C1 (amended): the end-to-end scenario produces exactly one record,
with name `"Super Game:"`, price `"$29.99"`, and the store placeholder
image. -/
theorem c1_pipeline_amended :
    (iter_list_page "en-US" c1Page).length = 1 ∧
      (iter_list_page "en-US" c1Page).map GameRecord.name = ["Super Game:"] ∧
      (iter_list_page "en-US" c1Page).map GameRecord.price = ["$29.99"] ∧
      (iter_list_page "en-US" c1Page).map GameRecord.image = [NINTENDO_PLACEHOLDER] := by
  refine ⟨by decide, by decide, by decide, by decide⟩

/-- C2 (counterexample): a page of `c2Pages` returns exactly page-size
(2) raw items, yet the loop does not fetch page 1 (with ample fuel the
fetched pages are just `[0]`), because one of the two raw items fails
normalization and the stop condition counts normalized records, not raw
items. -/
theorem c2_stop_counterexample :
    (extract_items_from_api (c2Pages 0)).length = 2 ∧
      searchPagesFetched "en-US" c2Pages 2 5 0 = [0] := by
  constructor
  · decide
  · decide

/-- C2 (amended): for every query stream, the next page index `n + 1` is
fetched iff page `n` was fetched and at least `pageSize` of page `n`'s
items normalized successfully — the loop's `count` is the number of
successfully normalized records, not the raw item count. -/
theorem c2_stop_amended (locale : String) (pages : Nat → Json) (ps fuel n : Nat)
    (hfuel : n + 1 < fuel) :
    (n + 1) ∈ searchPagesFetched locale pages ps fuel 0 ↔
      n ∈ searchPagesFetched locale pages ps fuel 0 ∧
        ps ≤ normCount locale (pages n) := by
  rw [mem_searchPagesFetched, mem_searchPagesFetched]
  constructor
  · rintro ⟨h1, h2, h3⟩
    exact ⟨⟨by omega, by omega, fun q hq1 hq2 => h3 q hq1 (by omega)⟩,
      h3 n (by omega) (by omega)⟩
  · rintro ⟨⟨g1, g2, g3⟩, hc⟩
    refine ⟨by omega, by omega, fun q hq1 hq2 => ?_⟩
    rcases Nat.lt_or_ge q n with h | h
    · exact g3 q hq1 h
    · have : q = n := by omega
      subst this
      exact hc

/-- C2 witness: with two pages of two successfully-normalizing items each
and page size 2, page 1 is fetched. -/
theorem c2_stop_amended_witness :
    1 ∈ searchPagesFetched "en-US" c2GoodPages 2 3 0 :=
  (c2_stop_amended "en-US" c2GoodPages 2 3 0 (by decide)).mpr ⟨by decide, by decide⟩

/-- C3 (counterexample): on `c3Js` the first PRESENT key (`products`)
holds an empty array, and the code returns the `items` array, while the
claim's first-present-key rule yields no items; on `c3Js2` the code
falls through to `data` even though `products` is present at the top
level, again contradicting the claim's rule. -/
theorem c3_priority_counterexample :
    extract_items_from_api c3Js = [Json.str "x"] ∧
      claimExtractItems c3Js = [] ∧
      extract_items_from_api c3Js2 = [Json.str "y"] ∧
      claimExtractItems c3Js2 = [] :=
  ⟨rfl, rfl, rfl, rfl⟩

/-- C3 (amended): extraction takes the first key of the priority list
`products`, `items`, `results` whose value is a NON-EMPTY list; when no
key has a non-empty list value at the top level (even if some of the
keys are present), the same rule is applied one level deeper inside
`data`; otherwise no items are produced. -/
theorem c3_extraction_amended :
    (∀ js, extract_items_from_api js = amendedExtractItems js) ∧
      extract_items_from_api c3Js = [Json.str "x"] ∧
      extract_items_from_api c3Js2 = [Json.str "y"] :=
  ⟨extract_eq_amended, rfl, rfl⟩

/-- C4: a page whose embedded-data block fails `json.loads` yields zero
records from the embedded-data sub-parser (no exception: the failure is
modelled by the parse returning `none`), and the linked-data sub-parser
still runs, so the page yields exactly the linked-data records; and a
malformed individual linked-data block is skipped while all remaining
blocks are still processed. -/
theorem c4_parse_resilience :
    (∀ (locale : String) (pg : PageBlocks) (s : String),
      pg.nextData = some s → pyJsonLoads s = none →
        parse_next_data locale pg = [] ∧
          iter_list_page locale pg = parse_jsonld pg.url pg.ldBlocks) ∧
      (∀ (url bad : String) (pre post : List String), pyJsonLoads bad = none →
        parse_jsonld url (pre ++ bad :: post) = parse_jsonld url (pre ++ post)) := by
  constructor
  · intro locale pg s hs hl
    have h0 : parse_next_data locale pg = [] := by
      simp [parse_next_data, hs, hl]
    exact ⟨h0, by simp [iter_list_page, h0]⟩
  · intro url bad pre post hbad
    have hb : jsonld_block_records url bad = [] := by
      simp [jsonld_block_records, hbad]
    simp [parse_jsonld, List.flatMap_append, List.flatMap_cons, hb]

/-- C4 witness: the resilience scenario on a concrete page with an
invalid `__NEXT_DATA__` block and one valid linked-data block, and a
concrete malformed block dropped from a block list. -/
theorem c4_parse_resilience_witness :
    (parse_next_data "en-US" c4Page = [] ∧
        iter_list_page "en-US" c4Page = parse_jsonld c4Page.url c4Page.ldBlocks) ∧
      parse_jsonld "u" ([c4LdBlock] ++ "\x7boops" :: []) = parse_jsonld "u" ([c4LdBlock] ++ []) :=
  ⟨c4_parse_resilience.1 "en-US" c4Page "\x7boops" rfl rfl,
    c4_parse_resilience.2 "u" "\x7boops" [c4LdBlock] [] rfl⟩

/-- C5 (counterexample): `strip_edition_noise` is not idempotent: on
`"a directors deluxe cut"` one application removes `deluxe` and the
whitespace collapse then forms the new edition phrase `directors cut`,
which a second application removes. -/
theorem c5_strip_idem_counterexample :
    strip_edition_noise "a directors deluxe cut" = "a directors cut" ∧
      strip_edition_noise (strip_edition_noise "a directors deluxe cut") = "a" ∧
      strip_edition_noise (strip_edition_noise "a directors deluxe cut")
        ≠ strip_edition_noise "a directors deluxe cut" := by
  refine ⟨by decide, by decide, by decide⟩

/-- C5 (amended): `clean_title` is idempotent, and `strip_edition_noise`
is invariant under pre-composition with `clean_title` (its first step);
full idempotence of `strip_edition_noise` fails (see the
counterexample). -/
theorem c5_idempotence_amended (s : String) :
    clean_title (clean_title s) = clean_title s ∧
      strip_edition_noise (clean_title s) = strip_edition_noise s :=
  ⟨clean_title_idem s, strip_edition_noise_clean s⟩

/-- C6: the canonical key is the edition-noise-stripped title,
lower-cased, with every non-alphanumeric character removed; the two
`Halo` spellings share a key; and `cluster` maps each canonical key to
exactly the sub-list of input records bearing that key, in first-seen
input order (a filter of the input list). -/
theorem c6_canonical_key_cluster :
    (∀ s, canonical_key s = specCanonicalKey s) ∧
      canonical_key "Halo: Infinite – Deluxe Edition" = canonical_key "HALO INFINITE" ∧
      ∀ (rs : List GameRecord) (k : String),
        bucketsGet (cluster rs) k = rs.filter (fun r => canonical_key r.name == k) :=
  ⟨canonical_key_eq_spec, by decide, bucketsGet_cluster⟩

/-- C7: price formatting — `19.99` USD renders as `"$19.99"`, `19.99`
EUR as `"EUR 19.99"`, missing amount and currency as `"Unavailable"`,
and any non-empty `flags` string is returned as the price regardless of
the numeric fields. -/
theorem c7_price_formatting :
    price_to_string (some (mkRat 1999 100)) (some "USD") none = "$19.99" ∧
      price_to_string (some (mkRat 1999 100)) (some "EUR") none = "EUR 19.99" ∧
      price_to_string none none none = "Unavailable" ∧
      (mkRat 1999 100 : ℚ) = 19.99 ∧
      ∀ (a : Option ℚ) (c : Option String) (f : String), f ≠ "" →
        price_to_string a c (some f) = f := by
  refine ⟨by decide, by decide, by decide, by norm_num [mkRat, Rat.normalize],
    fun a c f hf => ?_⟩
  simp [price_to_string, hf]

/-- C7 witness: the flag `"Free"` wins over a concrete numeric amount and
currency. -/
theorem c7_price_formatting_witness :
    price_to_string (some (mkRat 1999 100)) (some "USD") (some "Free") = "Free" :=
  c7_price_formatting.2.2.2.2 (some (mkRat 1999 100)) (some "USD") "Free" (by decide)

/-- C8: the platforms of every constructed `GameRecord` / `LetterItem`
contain no two case-insensitively equal entries; they form a
subsequence of the stripped non-empty input entries (so relative input
order is preserved); and their lower-cased forms are exactly the
first occurrences, in first-seen order, of the lower-cased cleaned
input. -/
theorem c8_platforms_dedup_order (v : List String) :
    List.Pairwise (fun a b => pyLowerS a ≠ pyLowerS b) (platformsClean v) ∧
      (platformsClean v).Sublist (cleanedPlatforms v) ∧
      (platformsClean v).map pyLowerS
        = firstOccurrences ((cleanedPlatforms v).map pyLowerS) ∧
      (∀ st n p i h u r t,
        (mkGameRecord st n p i h u v r t).platforms = platformsClean v) ∧
      (∀ n t p i h u r,
        (mkLetterItem n t p i h u v r).platforms = platformsClean v) :=
  ⟨(platformsCleanGo_mem_pairwise v []).2, platformsCleanGo_sublist v [],
    platformsClean_lower v, fun _ _ _ _ _ _ _ _ => rfl, fun _ _ _ _ _ _ _ => rfl⟩

/-- C9 (counterexample): for `" apple"` the first character of the name
is a space, so the claim's rule yields the catch-all bucket `"_"`, but
`letter_bucket` strips whitespace first and returns `"a"`. -/
theorem c9_letter_bucket_counterexample :
    letter_bucket " apple" = "a" ∧ claimLetterBucket " apple" = "_" ∧
      ("a" : String) ≠ "_" := by
  refine ⟨by decide, by decide, by decide⟩

/-- C9 (amended): the bucket key is the lower-cased first character of
the WHITESPACE-STRIPPED name when that character is `a`–`z`, and `"_"`
otherwise; `"Tetris"` falls in bucket `t` and `"2048"` in `_`. -/
theorem c9_letter_bucket_amended :
    (∀ name, letter_bucket name = claimLetterBucket (pyStripS name)) ∧
      letter_bucket "Tetris" = "t" ∧ letter_bucket "2048" = "_" :=
  ⟨letter_bucket_eq_claim_on_strip, by decide, by decide⟩

/-- C10: every platforms entry of a constructed record is a non-empty,
whitespace-stripped string arising as the stripped form of some input
entry (entries that strip to empty are dropped). -/
theorem c10_platform_entry_invariant (v : List String) (x : String)
    (hx : x ∈ platformsClean v) :
    x ≠ "" ∧ pyStripS x = x ∧ ∃ p, p ∈ v ∧ x = pyStripS p := by
  obtain ⟨-, hne, p, hp, hxp⟩ := (platformsCleanGo_mem_pairwise v []).1 x hx
  refine ⟨hne, ?_, p, hp, hxp⟩
  rw [hxp, pyStripS_idem]

/-- C10 witness: the entry `"Switch"` of a concrete cleaned platform
list. -/
theorem c10_platform_entry_invariant_witness :
    ("Switch" : String) ≠ "" ∧ pyStripS "Switch" = "Switch" ∧
      ∃ p, p ∈ [" Switch ", "", "switch", "PC"] ∧ "Switch" = pyStripS p :=
  c10_platform_entry_invariant [" Switch ", "", "switch", "PC"] "Switch" (by decide)
